import Mathlib

/-!
Shallow embedding of the tertestrial core: the trigger-matching and templating
engine of `server-rust/src/config.rs` and the signal pipeline of `src/fifo.rs`
and `src/ctrl_c.rs`, together with proofs about the claims on them.

External collaborators (the `regex` crate and `serde_json`) are modelled by
small executable engines covering exactly the fragment the program exercises.
Pieces of the repository outside the provided sources (`trigger.rs`,
`errors.rs`, `signal.rs`) are modelled from the spec and marked as such.
-/

set_option maxRecDepth 100000

namespace Tertestrial

/-- Modelled from the spec: the user-facing error type of errors.rs (outside
the provided sources) — a short message plus an actionable hint, built by
`UserErr::new(message, hint)` / `UserErr::from_str`. -/
structure UserErr where
  message : String
  guidance : String
  deriving DecidableEq, Repr

/-- Outcome of running a fallible piece of the Rust code: a success, a returned
`UserErr`, or a process abort (a `panic!` or an `.unwrap()` on `None`). -/
inductive Res (α : Type) where
  | ok : α → Res α
  | uerr : UserErr → Res α
  | panicked : String → Res α
  deriving DecidableEq, Repr

/-- Modelled from the spec: a test-run request — a command kind plus optional
file and line context (`Trigger` lives in trigger.rs, outside the provided
sources; fields per spec section 3). -/
structure Trigger where
  command : String
  file : Option String
  line : Option Nat
  deriving DecidableEq, Repr

/-- Modelled from the spec: pattern-trigger matching (trigger.rs is outside the
provided sources). Per spec section 4.1: `command` fields must be exactly equal;
an absent pattern `file`/`line` matches any query value; a present one requires
the query value to be present and exactly equal (the exact-equality discipline
the spec reports as the reference behavior). -/
def Trigger.matches_client_trigger (pattern query : Trigger) : Bool :=
  pattern.command == query.command &&
    (match pattern.file with
     | none => true
     | some f => query.file == some f) &&
    (match pattern.line with
     | none => true
     | some l => query.line == some l)

/-- Modelled from the spec: the textual rendering of a trigger used in error
messages (the `Display` impl lives in trigger.rs, outside the provided
sources); it names the command and any file/line context of the trigger. -/
def Trigger.display (t : Trigger) : String :=
  t.command
    ++ (match t.file with | none => "" | some f => " file=" ++ f)
    ++ (match t.line with | none => "" | some l => " line=" ++ toString l)

/-- The source of a configured variable (config.rs, `VarSource`). -/
inductive VarSource where
  | file
  | line
  | currentOrAboveLineContent
  deriving DecidableEq, Repr

/-- A configured variable (config.rs, `Var`). -/
structure Var where
  name : String
  source : VarSource
  filter : String
  deriving DecidableEq, Repr

/-- A configured action (config.rs, `Action`). -/
structure Action where
  trigger : Trigger
  run : String
  vars : Option (List Var)
  deriving DecidableEq, Repr

/-- The rule table (config.rs, `Configuration`). -/
structure Configuration where
  actions : List Action
  deriving DecidableEq, Repr

/-- The Signal vocabulary (signal.rs is outside the provided sources; the
variants `Line(String)` and `Exit` are fixed by their uses in fifo.rs and
ctrl_c.rs and by spec section 3). -/
inductive Signal where
  | line : String → Signal
  | exit : Signal
  deriving DecidableEq, Repr

/-- One item yielded by the `lines()` iterator of an open pipe read cycle:
either a successfully read line or a read error. -/
inductive ReadItem where
  | ok : String → ReadItem
  | err : String → ReadItem
  deriving DecidableEq, Repr

/-- The signals emitted by one open/read cycle of `listen` in fifo.rs: each
`Ok` line is forwarded as `Signal::Line`; the first read error sends
`Signal::Exit` and breaks out of the cycle (dropping the remaining items); an
exhausted iterator (end of stream) simply ends the cycle with no signal. -/
def listen_cycle : List ReadItem → List Signal
  | [] => []
  | ReadItem.ok t :: rest => Signal.line t :: listen_cycle rest
  | ReadItem.err _ :: _ => [Signal.exit]

/-- The signals emitted by the infinite loop of `listen` in fifo.rs across
successive pipe-open cycles: the loop body reopens the pipe and runs one read
cycle, forever; the emitted stream is the concatenation of the cycles'
emissions. -/
def listen_run (cycles : List (List ReadItem)) : List Signal :=
  (cycles.map listen_cycle).flatten

lemma listen_run_cons (c : List ReadItem) (more : List (List ReadItem)) :
    listen_run (c :: more) = listen_cycle c ++ listen_run more := by
  simp [listen_run]

lemma listen_cycle_ok_append (ts : List String) (r : List ReadItem) :
    listen_cycle (ts.map ReadItem.ok ++ r) = ts.map Signal.line ++ listen_cycle r := by
  induction ts with
  | nil => rfl
  | cons t ts ih => simp [listen_cycle, ih]

/-- C7: counterexample. A read cycle that ends by exhausting the stream (here:
one successfully read line, then end-of-stream) emits only the `Line` signal
and then reopens; contrary to the claim, no `Signal::Exit` is emitted on
end-of-stream — only a read error emits `Exit`. -/
theorem listen_eof_emits_no_exit :
    listen_run [[ReadItem.ok "a"]] = [Signal.line "a"] ∧
      Signal.exit ∉ listen_run [[ReadItem.ok "a"]] := by
  constructor
  · rfl
  · intro h
    simp [listen_run, listen_cycle] at h

/-- C7 (amended): within one open read cycle the listener forwards the `Ok`
lines, in order, as `Line` signals; a read error then emits exactly one `Exit`
and abandons the rest of the cycle before reopening; an end-of-stream ends the
cycle and reopens the pipe without emitting any `Exit`. The consumer therefore
receives `Exit` from the listener only right after a read error, never between
lines of one cycle and never on a plain end-of-stream. -/
theorem listen_cycle_signals (ts : List String) (e : String) (rest : List ReadItem)
    (more : List (List ReadItem)) :
    listen_run ((ts.map ReadItem.ok ++ ReadItem.err e :: rest) :: more)
        = ts.map Signal.line ++ Signal.exit :: listen_run more
      ∧ listen_run ((ts.map ReadItem.ok) :: more)
        = ts.map Signal.line ++ listen_run more := by
  constructor
  · rw [listen_run_cons, listen_cycle_ok_append]
    simp [listen_cycle]
  · rw [listen_run_cons]
    have h := listen_cycle_ok_append ts []
    simp at h
    rw [h]
    simp [listen_cycle]

/-! ### The placeholder pattern of `replace` (config.rs)

`replace(text, placeholder, replacement)` builds the regex
`\{\{\s*PLACEHOLDER\s*\}\}` — splicing the placeholder name in unescaped —
and replaces every non-overlapping match with the replacement, literally
(`NoExpand`).  The model below embeds the `regex` crate on exactly the
fragment this pattern exercises: the name's characters act as regex atoms
(a plain character matches itself, `.` matches any character except a
newline); a name containing any other regex metacharacter makes the pattern
fail to compile, which the code turns into a panic via `.unwrap()`. -/

/-- A character matched by the regex class `\s`. -/
def isWsChar (c : Char) : Bool :=
  c == ' ' || c == '\t' || c == '\n' || c == '\r' || c == '\x0b' || c == '\x0c'

/-- A character that stands for itself inside a regex (the fragment of
plain-text characters the model supports). -/
def plainChar (c : Char) : Bool :=
  c.isAlphanum || c == '_' || c == '-'

/-- One regex atom arising from a placeholder name: a literal character or
the any-character metacharacter `.` . -/
inductive PAtom where
  | lit : Char → PAtom
  | dot : PAtom
  deriving DecidableEq, Repr

/-- Compilation of the placeholder name, spliced raw into the pattern: plain
characters become literals, `.` becomes the any-character atom, anything else
makes the regex invalid (`Regex::new(...).unwrap()` panics). -/
def parseName : List Char → Option (List PAtom)
  | [] => some []
  | c :: cs =>
    if c = '.' then (parseName cs).map (fun as => PAtom.dot :: as)
    else if plainChar c then (parseName cs).map (fun as => PAtom.lit c :: as)
    else none

/-- Match the name's atoms against a prefix of the input; each atom consumes
exactly one character (`.` does not match a newline in the `regex` crate). -/
def matchAtoms : List PAtom → List Char → Option (List Char)
  | [], cs => some cs
  | _ :: _, [] => none
  | PAtom.lit d :: as, c :: cs => if d = c then matchAtoms as cs else none
  | PAtom.dot :: as, c :: cs => if c = '\n' then none else matchAtoms as cs

/-- The two closing braces of the pattern. -/
def expectBraces : List Char → Option (List Char)
  | c1 :: c2 :: r3 => if c1 = '}' ∧ c2 = '}' then some r3 else none
  | _ => none

/-- After the leading whitespace: the name's atoms, then `\s*`, then the two
closing braces. -/
def matchCore (atoms : List PAtom) (cs : List Char) : Option (List Char) :=
  (matchAtoms atoms cs).bind (fun r => expectBraces (r.dropWhile isWsChar))

/-- Greedy `\s*` after the opening braces: try the longest whitespace prefix
first, backtracking one character at a time. -/
def tryLead (atoms : List PAtom) (rest : List Char) : Nat → Option (List Char)
  | 0 => matchCore atoms rest
  | i + 1 => (matchCore atoms (rest.drop (i + 1))).orElse (fun _ => tryLead atoms rest i)

/-- Length of the leading whitespace run. -/
def countWs (cs : List Char) : Nat :=
  (cs.takeWhile isWsChar).length

/-- Match the whole pattern `\{\{\s*NAME\s*\}\}` at the head of the input,
returning the input after the match. -/
def matchTokenAt (atoms : List PAtom) : List Char → Option (List Char)
  | c1 :: c2 :: rest =>
    if c1 = '{' ∧ c2 = '{' then tryLead atoms rest (countWs rest) else none
  | _ => none

lemma matchAtoms_length : ∀ (as : List PAtom) (cs r : List Char),
    matchAtoms as cs = some r → r.length ≤ cs.length := by
  intro as
  induction as with
  | nil =>
    intro cs r h
    simp [matchAtoms] at h
    simp [h]
  | cons a as ih =>
    intro cs r h
    match a, cs with
    | PAtom.lit d, [] => simp [matchAtoms] at h
    | PAtom.dot, [] => simp [matchAtoms] at h
    | PAtom.lit d, c :: cs =>
      simp only [matchAtoms] at h
      split at h
      · exact Nat.le_succ_of_le (ih cs r h)
      · exact absurd h (by simp)
    | PAtom.dot, c :: cs =>
      simp only [matchAtoms] at h
      split at h
      · exact absurd h (by simp)
      · exact Nat.le_succ_of_le (ih cs r h)

lemma length_dropWhile_le (p : Char → Bool) : ∀ l : List Char,
    (l.dropWhile p).length ≤ l.length := by
  intro l
  induction l with
  | nil => simp [List.dropWhile]
  | cons c cs ih =>
    simp only [List.dropWhile]
    split
    · exact Nat.le_succ_of_le ih
    · simp

lemma expectBraces_some (l r : List Char) (h : expectBraces l = some r) :
    l = '}' :: '}' :: r := by
  match l with
  | [] => simp [expectBraces] at h
  | [c] => simp [expectBraces] at h
  | c1 :: c2 :: r3 =>
    simp only [expectBraces] at h
    split at h
    · rename_i hc
      obtain ⟨rfl, rfl⟩ := hc
      injection h with h3
      rw [h3]
    · simp at h

lemma matchCore_length (atoms : List PAtom) (cs r : List Char)
    (h : matchCore atoms cs = some r) : r.length < cs.length := by
  unfold matchCore at h
  rcases hm : matchAtoms atoms cs with _ | r0
  · rw [hm] at h
    simp at h
  · rw [hm] at h
    simp only [Option.bind] at h
    have hd := expectBraces_some _ _ h
    have hdl : (r0.dropWhile isWsChar).length ≤ r0.length := length_dropWhile_le isWsChar r0
    rw [hd] at hdl
    have hml := matchAtoms_length atoms cs r0 hm
    simp at hdl
    omega

lemma tryLead_length (atoms : List PAtom) (rest : List Char) :
    ∀ (i : Nat) (r : List Char), tryLead atoms rest i = some r → r.length < rest.length := by
  intro i
  induction i with
  | zero =>
    intro r h
    simp only [tryLead] at h
    exact matchCore_length atoms rest r h
  | succ i ih =>
    intro r h
    simp only [tryLead] at h
    rcases ho : matchCore atoms (rest.drop (i + 1)) with _ | r2
    · rw [ho] at h
      simp [Option.orElse] at h
      exact ih r h
    · rw [ho] at h
      simp [Option.orElse] at h
      subst h
      have := matchCore_length atoms (rest.drop (i + 1)) r2 ho
      have hdl : (rest.drop (i + 1)).length ≤ rest.length := by
        simp
      omega


lemma matchTokenAt_length (atoms : List PAtom) (cs r : List Char)
    (h : matchTokenAt atoms cs = some r) : r.length < cs.length := by
  match cs with
  | [] => simp [matchTokenAt] at h
  | [c] => simp [matchTokenAt] at h
  | c1 :: c2 :: rest =>
    simp only [matchTokenAt] at h
    split at h
    · have := tryLead_length atoms rest (countWs rest) r h
      simp
      omega
    · exact absurd h (by simp)

/-- Fuel-indexed scan of `replace_all`: at each position, replace a match of
the placeholder pattern with the replacement (which is never rescanned) and
continue after it, or copy one character and continue. -/
def replaceAllGo (atoms : List PAtom) (v : List Char) : Nat → List Char → List Char
  | _, [] => []
  | 0, c :: cs => c :: cs
  | fuel + 1, c :: cs =>
    match matchTokenAt atoms (c :: cs) with
    | some rest => v ++ replaceAllGo atoms v fuel rest
    | none => c :: replaceAllGo atoms v fuel cs

/-- `Regex::replace_all` over the compiled placeholder pattern, with the
replacement inserted literally (`NoExpand`). -/
def replaceAll (atoms : List PAtom) (v cs : List Char) : List Char :=
  replaceAllGo atoms v cs.length cs

lemma replaceAllGo_nil (atoms : List PAtom) (v : List Char) (f : Nat) :
    replaceAllGo atoms v f [] = [] := by
  cases f <;> rfl

lemma replaceAllGo_congr (atoms : List PAtom) (v : List Char) :
    ∀ (f1 f2 : Nat) (cs : List Char), cs.length ≤ f1 → cs.length ≤ f2 →
      replaceAllGo atoms v f1 cs = replaceAllGo atoms v f2 cs := by
  intro f1
  induction f1 with
  | zero =>
    intro f2 cs h1 _
    have : cs = [] := by
      cases cs
      · rfl
      · simp at h1
    subst this
    simp [replaceAllGo_nil]
  | succ f1 ih =>
    intro f2 cs h1 h2
    match cs, f2 with
    | [], f2 => simp [replaceAllGo_nil]
    | c :: cs, 0 => simp at h2
    | c :: cs, f2 + 1 =>
      simp only [replaceAllGo]
      rcases hm : matchTokenAt atoms (c :: cs) with _ | rest
      · have hlen : cs.length ≤ f1 := by simp at h1; omega
        have hlen2 : cs.length ≤ f2 := by simp at h2; omega
        show c :: replaceAllGo atoms v f1 cs = c :: replaceAllGo atoms v f2 cs
        rw [ih f2 cs hlen hlen2]
      · have hr := matchTokenAt_length atoms (c :: cs) rest hm
        have hlen : rest.length ≤ f1 := by simp at h1; simp at hr; omega
        have hlen2 : rest.length ≤ f2 := by simp at h2; simp at hr; omega
        show v ++ replaceAllGo atoms v f1 rest = v ++ replaceAllGo atoms v f2 rest
        rw [ih f2 rest hlen hlen2]

lemma replaceAll_nil (atoms : List PAtom) (v : List Char) :
    replaceAll atoms v [] = [] := rfl

lemma replaceAll_cons_some (atoms : List PAtom) (v : List Char) (c : Char)
    (cs rest : List Char) (h : matchTokenAt atoms (c :: cs) = some rest) :
    replaceAll atoms v (c :: cs) = v ++ replaceAll atoms v rest := by
  unfold replaceAll
  have hr := matchTokenAt_length atoms (c :: cs) rest h
  simp only [List.length_cons, replaceAllGo, h]
  rw [replaceAllGo_congr atoms v cs.length rest.length rest (by simp at hr; omega) le_rfl]

lemma replaceAll_cons_none (atoms : List PAtom) (v : List Char) (c : Char)
    (cs : List Char) (h : matchTokenAt atoms (c :: cs) = none) :
    replaceAll atoms v (c :: cs) = c :: replaceAll atoms v cs := by
  unfold replaceAll
  simp only [List.length_cons, replaceAllGo, h]

/-- `replace` from config.rs: compile `\{\{\s*placeholder\s*\}\}` (a `none`
result models the `.unwrap()` panic on an invalid pattern) and replace all
matches in the text with the replacement. -/
def replace (text placeholder replacement : String) : Option String :=
  match parseName placeholder.data with
  | none => none
  | some atoms => some (String.mk (replaceAll atoms replacement.data text.data))

/-! ### Facts about plain characters and token matching -/

lemma ws_not_plain (c : Char) (h : isWsChar c = true) : plainChar c = false := by
  simp [isWsChar] at h
  rcases h with ((((rfl | rfl) | rfl) | rfl) | rfl) | rfl <;> decide

lemma plain_not_ws (c : Char) (h : plainChar c = true) : isWsChar c = false := by
  cases hw : isWsChar c
  · rfl
  · rw [ws_not_plain c hw] at h
    exact absurd h (by simp)

lemma plain_ne_lbrace (c : Char) (h : plainChar c = true) : c ≠ '{' := by
  rintro rfl
  exact absurd h (by decide)

lemma plain_ne_rbrace (c : Char) (h : plainChar c = true) : c ≠ '}' := by
  rintro rfl
  exact absurd h (by decide)

lemma plain_ne_dot (c : Char) (h : plainChar c = true) : c ≠ '.' := by
  rintro rfl
  exact absurd h (by decide)

lemma parseName_plain : ∀ n : List Char, (∀ c ∈ n, plainChar c = true) →
    parseName n = some (n.map PAtom.lit) := by
  intro n
  induction n with
  | nil => intro _; rfl
  | cons c cs ih =>
    intro h
    have hc := h c (by simp)
    have hdot := plain_ne_dot c hc
    simp [parseName, hdot, hc, ih (fun d hd => h d (by simp [hd]))]

lemma matchAtoms_self : ∀ (n r : List Char),
    matchAtoms (n.map PAtom.lit) (n ++ r) = some r := by
  intro n
  induction n with
  | nil => intro r; rfl
  | cons c cs ih => intro r; simp [matchAtoms, ih]

lemma countWs_cons_not_ws (c : Char) (cs : List Char) (h : isWsChar c = false) :
    countWs (c :: cs) = 0 := by
  simp [countWs, List.takeWhile_cons, h]

lemma countWs_cons_ws (c : Char) (cs : List Char) (h : isWsChar c = true) :
    countWs (c :: cs) = countWs cs + 1 := by
  simp [countWs, List.takeWhile_cons, h]

lemma dropWhile_cons_not_ws (c : Char) (cs : List Char) (h : isWsChar c = false) :
    List.dropWhile isWsChar (c :: cs) = c :: cs := by
  simp [List.dropWhile_cons, h]

lemma dropWhile_cons_ws (c : Char) (cs : List Char) (h : isWsChar c = true) :
    List.dropWhile isWsChar (c :: cs) = List.dropWhile isWsChar cs := by
  simp [List.dropWhile_cons, h]

lemma matchCore_self (n t : List Char) :
    matchCore (n.map PAtom.lit) (n ++ '}' :: '}' :: t) = some t := by
  unfold matchCore
  rw [matchAtoms_self]
  simp only [Option.bind]
  rw [dropWhile_cons_not_ws _ _ (by decide)]
  simp [expectBraces]

lemma matchCore_self_loose (n t : List Char) :
    matchCore (n.map PAtom.lit) (n ++ ' ' :: '}' :: '}' :: t) = some t := by
  unfold matchCore
  rw [matchAtoms_self]
  simp only [Option.bind]
  rw [dropWhile_cons_ws _ _ (by decide), dropWhile_cons_not_ws _ _ (by decide)]
  simp [expectBraces]

/-- The tight placeholder token for a name. -/
def tightTok (n : List Char) : List Char :=
  '{' :: '{' :: (n ++ ['}', '}'])

/-- The whitespace-padded placeholder token for a name. -/
def looseTok (n : List Char) : List Char :=
  '{' :: '{' :: ' ' :: (n ++ [' ', '}', '}'])

lemma matchTokenAt_tight (n t : List Char) (hne : n ≠ [])
    (hp : ∀ c ∈ n, plainChar c = true) :
    matchTokenAt (n.map PAtom.lit) (tightTok n ++ t) = some t := by
  cases n with
  | nil => exact absurd rfl hne
  | cons c n' =>
    have hws : isWsChar c = false := plain_not_ws c (hp c (by simp))
    have hl : ((c :: n') ++ ['}', '}']) ++ t = c :: (n' ++ '}' :: '}' :: t) := by
      simp
    show matchTokenAt _ ('{' :: '{' :: (((c :: n') ++ ['}', '}']) ++ t)) = some t
    rw [hl]
    simp only [matchTokenAt, if_pos (And.intro rfl rfl)]
    rw [countWs_cons_not_ws c _ hws]
    simp only [tryLead]
    exact matchCore_self (c :: n') t

lemma matchTokenAt_loose (n t : List Char) (hne : n ≠ [])
    (hp : ∀ c ∈ n, plainChar c = true) :
    matchTokenAt (n.map PAtom.lit) (looseTok n ++ t) = some t := by
  cases n with
  | nil => exact absurd rfl hne
  | cons c n' =>
    have hws : isWsChar c = false := plain_not_ws c (hp c (by simp))
    have hl : (' ' :: ((c :: n') ++ [' ', '}', '}'])) ++ t
        = ' ' :: c :: (n' ++ ' ' :: '}' :: '}' :: t) := by
      simp
    show matchTokenAt _ ('{' :: '{' :: ((' ' :: ((c :: n') ++ [' ', '}', '}'])) ++ t)) = some t
    rw [hl]
    simp only [matchTokenAt, if_pos (And.intro rfl rfl)]
    rw [countWs_cons_ws ' ' _ (by decide), countWs_cons_not_ws c _ hws]
    simp only [tryLead, List.drop]
    have hc := matchCore_self_loose (c :: n') t
    simp only [List.cons_append] at hc
    rw [hc]
    rfl

lemma matchTokenAt_fst_not_brace (atoms : List PAtom) (c : Char) (cs : List Char)
    (h : c ≠ '{') : matchTokenAt atoms (c :: cs) = none := by
  cases cs <;> simp [matchTokenAt, h]

lemma matchTokenAt_snd_not_brace (atoms : List PAtom) (c1 c2 : Char) (cs : List Char)
    (h : c2 ≠ '{') : matchTokenAt atoms (c1 :: c2 :: cs) = none := by
  simp [matchTokenAt, h]

lemma replaceAll_copy (atoms : List PAtom) (v : List Char) :
    ∀ (s t : List Char), (∀ c ∈ s, c ≠ '{') →
      replaceAll atoms v (s ++ t) = s ++ replaceAll atoms v t := by
  intro s
  induction s with
  | nil => intro t _; simp
  | cons c s' ih =>
    intro t hs
    have hc : c ≠ '{' := hs c (by simp)
    have hnone := matchTokenAt_fst_not_brace atoms c (s' ++ t) hc
    show replaceAll atoms v (c :: (s' ++ t)) = c :: (s' ++ replaceAll atoms v t)
    rw [replaceAll_cons_none atoms v c (s' ++ t) hnone,
      ih t (fun d hd => hs d (by simp [hd]))]

lemma replaceAll_tight_head (n v t : List Char) (hne : n ≠ [])
    (hp : ∀ c ∈ n, plainChar c = true) :
    replaceAll (n.map PAtom.lit) v (tightTok n ++ t)
      = v ++ replaceAll (n.map PAtom.lit) v t := by
  have h := matchTokenAt_tight n t hne hp
  exact replaceAll_cons_some (n.map PAtom.lit) v '{' ('{' :: ((n ++ ['}', '}']) ++ t)) t h

lemma replaceAll_loose_head (n v t : List Char) (hne : n ≠ [])
    (hp : ∀ c ∈ n, plainChar c = true) :
    replaceAll (n.map PAtom.lit) v (looseTok n ++ t)
      = v ++ replaceAll (n.map PAtom.lit) v t := by
  have h := matchTokenAt_loose n t hne hp
  exact replaceAll_cons_some (n.map PAtom.lit) v '{'
    ('{' :: ((' ' :: (n ++ [' ', '}', '}'])) ++ t)) t h

/-- `interc ss sep`: the segments of `ss` joined with the separator `sep`
(spelled out here to keep the induction shape explicit). -/
def interc : List (List Char) → List Char → List Char
  | [], _ => []
  | [s], _ => s
  | s :: ss, sep => s ++ sep ++ interc ss sep

lemma replaceAll_interc (atoms : List PAtom) (v : List Char) (tok : List Char)
    (hrepl : ∀ t, replaceAll atoms v (tok ++ t) = v ++ replaceAll atoms v t) :
    ∀ ss : List (List Char), (∀ s ∈ ss, ∀ c ∈ s, c ≠ '{') →
      replaceAll atoms v (interc ss tok) = interc ss v := by
  intro ss
  induction ss with
  | nil => intro _; simp [interc, replaceAll_nil]
  | cons s ss ih =>
    intro hss
    cases ss with
    | nil =>
      have h0 := replaceAll_copy atoms v s [] (hss s (by simp))
      simpa [interc, replaceAll_nil] using h0
    | cons s2 ss' =>
      have h1 : interc (s :: s2 :: ss') tok = s ++ (tok ++ interc (s2 :: ss') tok) := by
        simp [interc, List.append_assoc]
      have h2 : interc (s :: s2 :: ss') v = s ++ (v ++ interc (s2 :: ss') v) := by
        simp [interc, List.append_assoc]
      rw [h1, h2, replaceAll_copy atoms v s _ (hss s (by simp)), hrepl,
        ih (fun s3 hs3 => hss s3 (by simp [hs3]))]

/-- C3: for a placeholder name `n` (plain characters) mapped to a value `v`,
`replace` substitutes every occurrence of the placeholder token for `n` in the
template with `v` — here the template is an arbitrary interleaving of
brace-free segments with occurrences of the token — and the
whitespace-tolerant form of the token is substituted identically to the tight
form, producing the same output. -/
theorem replace_substitutes_every_occurrence (n v : String) (ss : List (List Char))
    (hne : n.data ≠ []) (hp : ∀ c ∈ n.data, plainChar c = true)
    (hss : ∀ s ∈ ss, ∀ c ∈ s, c ≠ '{') :
    replace (String.mk (interc ss (tightTok n.data))) n v
        = some (String.mk (interc ss v.data))
      ∧ replace (String.mk (interc ss (looseTok n.data))) n v
        = some (String.mk (interc ss v.data)) := by
  unfold replace
  rw [parseName_plain n.data hp]
  refine ⟨congrArg (fun l => some (String.mk l)) ?_,
    congrArg (fun l => some (String.mk l)) ?_⟩
  · exact replaceAll_interc (n.data.map PAtom.lit) v.data (tightTok n.data)
      (fun t => replaceAll_tight_head n.data v.data t hne hp) ss hss
  · exact replaceAll_interc (n.data.map PAtom.lit) v.data (looseTok n.data)
      (fun t => replaceAll_loose_head n.data v.data t hne hp) ss hss

/-- C3: witness — the template of the spec's own example, with the tight and
the loose form of the token for `x` and value `v`: the token occurs twice,
both occurrences are replaced, and both forms yield the same output. -/
theorem replace_substitutes_every_occurrence_witness :
    replace (String.mk (interc [[], [' '], []] (tightTok "x".data))) "x" "v"
        = some (String.mk (interc [[], [' '], []] "v".data))
      ∧ replace (String.mk (interc [[], [' '], []] (looseTok "x".data))) "x" "v"
        = some (String.mk (interc [[], [' '], []] "v".data)) :=
  replace_substitutes_every_occurrence "x" "v" [[], [' '], []]
    (by decide) (by decide) (by decide)

/-- C9: counterexample. The placeholder name is spliced into the regex
unescaped, so it is not treated as a literal token: the name `a.c` matches
the template text `\x7b\x7babc\x7d\x7d`, which a literal treatment would leave
untouched, and the name `(` does not compile at all — `replace` panics
(modelled as `none`) instead of returning a string. -/
theorem replace_metachar_counterexample :
    replace (String.mk ['{', '{', 'a', 'b', 'c', '}', '}']) "a.c" "v" = some "v"
      ∧ replace (String.mk ['{', '{', 'x', '}', '}']) "(" "v" = none := by
  constructor
  · rfl
  · rfl

/-- C9 (amended): for a placeholder name made of plain characters (letters,
digits, underscore, hyphen) the substitution function is total — it returns a
string for every template and value — and treats the name as a literal token,
leaving brace-free text unchanged. For names containing regex metacharacters
the guarantee fails: the name is interpreted as regex syntax (`.` matches any
character) and a non-compiling name (such as `(`) panics. -/
theorem replace_total_for_plain_names (t n v : String)
    (hp : ∀ c ∈ n.data, plainChar c = true) :
    (replace t n v).isSome = true
      ∧ ((∀ c ∈ t.data, c ≠ '{') → replace t n v = some t) := by
  rcases t with ⟨td⟩
  unfold replace
  rw [parseName_plain n.data hp]
  constructor
  · rfl
  · intro ht
    have h := replaceAll_copy (n.data.map PAtom.lit) v.data td [] ht
    simp only [List.append_nil, replaceAll_nil] at h
    show (some (String.mk (replaceAll (n.data.map PAtom.lit) v.data td)) : Option String)
      = some (String.mk td)
    rw [h]

/-- C9 (amended): witness at a concrete template, name and value. -/
theorem replace_total_for_plain_names_witness :
    (replace "hello" "x" "v").isSome = true
      ∧ ((∀ c ∈ "hello".data, c ≠ '{') → replace "hello" "x" "v" = some "hello") :=
  replace_total_for_plain_names "hello" "x" "v" (by decide)

lemma matchCore_lit_step (c : Char) (as : List PAtom) (cs : List Char) :
    matchCore (PAtom.lit c :: as) (c :: cs) = matchCore as cs := by
  simp [matchCore, matchAtoms]

lemma matchCore_lit_ne (c d : Char) (as : List PAtom) (cs : List Char) (h : c ≠ d) :
    matchCore (PAtom.lit c :: as) (d :: cs) = none := by
  simp [matchCore, matchAtoms, h]

lemma matchCore_lits_ne : ∀ (n1 n2 t : List Char),
    (∀ c ∈ n1, plainChar c = true) → (∀ c ∈ n2, plainChar c = true) → n1 ≠ n2 →
    matchCore (n1.map PAtom.lit) (n2 ++ '}' :: '}' :: t) = none := by
  intro n1
  induction n1 with
  | nil =>
    intro n2 t _ hp2 hne
    cases n2 with
    | nil => exact absurd rfl hne
    | cons d n2' =>
      have hd := hp2 d (by simp)
      have hdb := plain_ne_rbrace d hd
      have hdw := plain_not_ws d hd
      show matchCore [] (d :: (n2' ++ '}' :: '}' :: t)) = none
      simp only [matchCore, matchAtoms, Option.bind]
      rw [dropWhile_cons_not_ws d _ hdw]
      cases n2' with
      | nil => simp [expectBraces, hdb]
      | cons e n2'' => simp [expectBraces, hdb]
  | cons c n1' ih =>
    intro n2 t hp1 hp2 hne
    cases n2 with
    | nil =>
      have hc := hp1 c (by simp)
      have hcb := plain_ne_rbrace c hc
      show matchCore (PAtom.lit c :: n1'.map PAtom.lit) ('}' :: '}' :: t) = none
      exact matchCore_lit_ne c '}' _ _ hcb
    | cons d n2' =>
      by_cases hcd : c = d
      · subst hcd
        show matchCore (PAtom.lit c :: n1'.map PAtom.lit)
          (c :: (n2' ++ '}' :: '}' :: t)) = none
        rw [matchCore_lit_step]
        exact ih n2' t (fun x hx => hp1 x (by simp [hx]))
          (fun x hx => hp2 x (by simp [hx])) (fun hh => hne (by rw [hh]))
      · show matchCore (PAtom.lit c :: n1'.map PAtom.lit)
          (d :: (n2' ++ '}' :: '}' :: t)) = none
        exact matchCore_lit_ne c d _ _ hcd

lemma matchTokenAt_tight_ne (n1 n2 t : List Char)
    (hp1 : ∀ c ∈ n1, plainChar c = true) (hp2 : ∀ c ∈ n2, plainChar c = true)
    (hne : n1 ≠ n2) (hne2 : n2 ≠ []) :
    matchTokenAt (n1.map PAtom.lit) (tightTok n2 ++ t) = none := by
  cases n2 with
  | nil => exact absurd rfl hne2
  | cons d n2' =>
    have hd := hp2 d (by simp)
    have hdw := plain_not_ws d hd
    have hl : ((d :: n2') ++ ['}', '}']) ++ t = d :: (n2' ++ '}' :: '}' :: t) := by
      simp
    show matchTokenAt _ ('{' :: '{' :: (((d :: n2') ++ ['}', '}']) ++ t)) = none
    rw [hl]
    simp only [matchTokenAt, if_pos (And.intro rfl rfl)]
    rw [countWs_cons_not_ws d _ hdw]
    simp only [tryLead]
    exact matchCore_lits_ne n1 (d :: n2') t hp1 hp2 hne

lemma replaceAll_skip_tight (n1 n2 v t : List Char)
    (hp1 : ∀ c ∈ n1, plainChar c = true) (hp2 : ∀ c ∈ n2, plainChar c = true)
    (hne : n1 ≠ n2) (hne2 : n2 ≠ []) :
    replaceAll (n1.map PAtom.lit) v (tightTok n2 ++ t)
      = tightTok n2 ++ replaceAll (n1.map PAtom.lit) v t := by
  cases n2 with
  | nil => exact absurd rfl hne2
  | cons d n2' =>
    have hd := hp2 d (by simp)
    have hdl := plain_ne_lbrace d hd
    have h0 := matchTokenAt_tight_ne n1 (d :: n2') t hp1 hp2 hne hne2
    have e0 : replaceAll (n1.map PAtom.lit) v (tightTok (d :: n2') ++ t)
        = '{' :: replaceAll (n1.map PAtom.lit) v
            ('{' :: (((d :: n2') ++ ['}', '}']) ++ t)) :=
      replaceAll_cons_none (n1.map PAtom.lit) v '{'
        ('{' :: (((d :: n2') ++ ['}', '}']) ++ t)) h0
    have h1 : matchTokenAt (n1.map PAtom.lit)
        ('{' :: (((d :: n2') ++ ['}', '}']) ++ t)) = none := by
      have hl : ((d :: n2') ++ ['}', '}']) ++ t = d :: (n2' ++ '}' :: '}' :: t) := by
        simp
      rw [hl]
      exact matchTokenAt_snd_not_brace _ '{' d _ hdl
    have e1 := replaceAll_cons_none (n1.map PAtom.lit) v '{'
      (((d :: n2') ++ ['}', '}']) ++ t) h1
    have hfree : ∀ c ∈ (d :: n2') ++ ['}', '}'], c ≠ '{' := by
      intro c hcmem
      rcases List.mem_append.mp hcmem with hcm | hcm
      · exact plain_ne_lbrace c (hp2 c hcm)
      · simp at hcm
        subst hcm
        decide
    have e2 := replaceAll_copy (n1.map PAtom.lit) v ((d :: n2') ++ ['}', '}']) t hfree
    rw [e0, e1, e2]
    simp [tightTok, List.append_assoc]

/-! ### The known-values mapping of `format_run`

The Rust code uses a `HashMap<&str, String>`; the model uses an association
list with overwrite-on-insert, iterated in insertion order (the map's
iteration order is unspecified in Rust; insertion order is the deterministic
choice of the model). -/

/-- `HashMap::insert`: overwrite an existing key in place or append. -/
def insertVal : List (String × String) → String → String → List (String × String)
  | [], k, v => [(k, v)]
  | (k', v') :: rest, k, v =>
    if k' = k then (k, v) :: rest else (k', v') :: insertVal rest k v

/-- `HashMap::get`. -/
def getVal : List (String × String) → String → Option String
  | [], _ => none
  | (k', v') :: rest, k => if k' = k then some v' else getVal rest k

/-! ### Model of the `regex` crate for `calculate_var` filters

`calculate_var` compiles `var.filter` with `Regex::new` and runs
`.captures(text)`.  The model below implements the fragment of regex syntax
the filters exercise: literal characters, `\`-escaped punctuation, `.`,
capturing groups `( )`, the postfix quantifiers `*` `+` `?`, and the
end-of-haystack anchor `$`.  Anything else fails to compile (`none`, which
the code turns into a panic through `.unwrap()`).  Matching is leftmost with
greedy preference order, as in the `regex` crate, and `.` does not match a
newline. -/

/-- The supported regex abstract syntax. -/
inductive RE where
  | eps
  | lit : Char → RE
  | dot
  | seq : RE → RE → RE
  | star : RE → RE
  | opt : RE → RE
  | group : Nat → RE → RE
  | eol
  deriving DecidableEq, Repr

/-- Characters with a metacharacter meaning outside an escape. -/
def regexMeta (c : Char) : Bool :=
  c == '(' || c == ')' || c == '*' || c == '+' || c == '?' || c == '[' ||
    c == ']' || c == '|' || c == '^' || c == '$' || c == '.' || c == '\\' ||
    c == '{' || c == '}'

mutual

/-- Parse one regex atom: a group, `.`, `$`, an escaped punctuation
character, or a plain literal character. -/
def parseAtomRE : Nat → List Char → Nat → Option (RE × Nat × List Char)
  | 0, _, _ => none
  | fuel + 1, cs, gn =>
    match cs with
    | [] => none
    | '(' :: rest =>
      match parseSeqRE fuel rest (gn + 1) with
      | some (r, gn', rest') =>
        match rest' with
        | ')' :: rest2 => some (RE.group gn r, gn', rest2)
        | _ => none
      | none => none
    | '.' :: rest => some (RE.dot, gn, rest)
    | '$' :: rest => some (RE.eol, gn, rest)
    | '\\' :: c :: rest => if c.isAlphanum then none else some (RE.lit c, gn, rest)
    | c :: rest => if regexMeta c then none else some (RE.lit c, gn, rest)

/-- Parse a concatenation of quantified atoms, stopping at `)` or the end. -/
def parseSeqRE : Nat → List Char → Nat → Option (RE × Nat × List Char)
  | 0, _, _ => none
  | fuel + 1, cs, gn =>
    match cs with
    | [] => some (RE.eps, gn, [])
    | ')' :: rest => some (RE.eps, gn, ')' :: rest)
    | _ =>
      match parseAtomRE fuel cs gn with
      | none => none
      | some (r, gn', rest) =>
        match
          (match rest with
           | '*' :: rr => (RE.star r, rr)
           | '+' :: rr => (RE.seq r (RE.star r), rr)
           | '?' :: rr => (RE.opt r, rr)
           | _ => (r, rest)) with
        | (r2, rest2) =>
          match parseSeqRE fuel rest2 gn' with
          | none => none
          | some (rs, gn2, rest3) => some (RE.seq r2 rs, gn2, rest3)

end

/-- `Regex::new` on a filter: parse the whole pattern; the result carries the
number of capture groups.  `none` models a pattern that fails to compile. -/
def compileRE (s : String) : Option (RE × Nat) :=
  match parseSeqRE (2 * s.length + 4) s.data 1 with
  | some (r, gn, []) => some (r, gn - 1)
  | _ => none

/-- Captured groups: group index paired with the captured text; a later
capture of the same group shadows an earlier one. -/
def setCap (caps : List (Nat × List Char)) (n : Nat) (val : List Char) :
    List (Nat × List Char) :=
  (n, val) :: caps

/-- Look up the most recent capture of a group. -/
def lookupCap : List (Nat × List Char) → Nat → Option (List Char)
  | [], _ => none
  | (m, v) :: rest, n => if m = n then some v else lookupCap rest n

/-- Structural size of a regex, used only to budget the matcher's fuel. -/
def reSize : RE → Nat
  | RE.eps => 1
  | RE.lit _ => 1
  | RE.dot => 1
  | RE.eol => 1
  | RE.seq a b => reSize a + reSize b + 1
  | RE.star r => reSize r + 1
  | RE.opt r => reSize r + 1
  | RE.group _ r => reSize r + 1

/-- Backtracking matcher in continuation style with preference order:
alternatives are tried greedily (`star`/`opt` first try to consume), and the
first success wins — the preference semantics of the `regex` crate. -/
def mtch : Nat → RE → List Char → List (Nat × List Char) →
    (List Char → List (Nat × List Char) → Option (List Char × List (Nat × List Char))) →
    Option (List Char × List (Nat × List Char))
  | 0, _, _, _, _ => none
  | fuel + 1, re, cs, caps, k =>
    match re with
    | RE.eps => k cs caps
    | RE.lit c =>
      match cs with
      | d :: rest => if c = d then k rest caps else none
      | [] => none
    | RE.dot =>
      match cs with
      | d :: rest => if d = '\n' then none else k rest caps
      | [] => none
    | RE.eol =>
      match cs with
      | [] => k [] caps
      | _ :: _ => none
    | RE.seq a b => mtch fuel a cs caps (fun cs2 caps2 => mtch fuel b cs2 caps2 k)
    | RE.opt r => (mtch fuel r cs caps k).orElse (fun _ => k cs caps)
    | RE.star r =>
      (mtch fuel r cs caps (fun cs2 caps2 =>
        if cs2.length < cs.length then mtch fuel (RE.star r) cs2 caps2 k
        else none)).orElse (fun _ => k cs caps)
    | RE.group n r =>
      mtch fuel r cs caps (fun cs2 caps2 =>
        k cs2 (setCap caps2 n (cs.take (cs.length - cs2.length))))

/-- Fuel budget for the matcher on a given input. -/
def mtchFuel (re : RE) (cs : List Char) : Nat :=
  (reSize re + 2) * (cs.length + 2) * 4

/-- Try an anchored match at the head of the input; on success, return the
matched text and the captures. -/
def tryAt (re : RE) (cs : List Char) : Option (List Char × List (Nat × List Char)) :=
  (mtch (mtchFuel re cs) re cs [] (fun rest caps => some (rest, caps))).map
    (fun p => (cs.take (cs.length - p.1.length), p.2))

/-- Leftmost search: try each start offset from the left; the first offset
with a match wins. -/
def searchRE (re : RE) : List Char → Option (List Char × List (Nat × List Char))
  | [] => tryAt re []
  | c :: cs => (tryAt re (c :: cs)).orElse (fun _ => searchRE re cs)

/-- `Regex::captures`: `none` when the pattern matches nowhere; otherwise the
list of capture slots — index 0 is the whole match, then one slot per group
(so its length is always the static group count plus one). -/
def reCaptures (re : RE) (ngroups : Nat) (text : List Char) :
    Option (List (Option (List Char))) :=
  (searchRE re text).map (fun p =>
    some p.1 :: (List.range ngroups).map (fun i => lookupCap p.2 (i + 1)))

/-! ### `calculate_var`, `format_run`, `get_command` (config.rs) -/

/-- The message of a Rust `.unwrap()` panic on `None`. -/
def unwrapNoneMsg : String := "called Option::unwrap() on a None value"

/-- `calculate_var` from config.rs: for a `File`-source var, apply the filter
regex to the known `file` value (`values.get("file").unwrap()` — a panic when
the key is absent; `Regex::new(..).unwrap()` — a panic when the filter does
not compile; `re.captures(text).unwrap()` — a panic when the filter does not
match); error unless the capture count (including the whole match) is exactly
two, otherwise return the single captured group.  The `Line` and
`CurrentOrAboveLineContent` sources are `panic!("implement")`. -/
def calculate_var (var : Var) (values : List (String × String)) : Res String :=
  match var.source with
  | VarSource.file =>
    match getVal values "file" with
    | none => Res.panicked unwrapNoneMsg
    | some text =>
      match compileRE var.filter with
      | none => Res.panicked "invalid filter regex"
      | some (re, ngroups) =>
        match reCaptures re ngroups text.data with
        | none => Res.panicked unwrapNoneMsg
        | some caps =>
          if caps.length ≠ 2 then
            Res.uerr ⟨"found " ++ toString caps.length ++ " captures",
              "filters in the Tertestrial configuration file can only contain one capture group"⟩
          else
            match caps[1]? with
            | some (some g) => Res.ok (String.mk g)
            | some none => Res.panicked unwrapNoneMsg
            | none => Res.panicked unwrapNoneMsg
  | VarSource.line => Res.panicked "implement"
  | VarSource.currentOrAboveLineContent => Res.panicked "implement"

/-- The `for var in vars` loop of `format_run`: evaluate each var against the
growing mapping and insert its value under the var's name; an error or panic
short-circuits. -/
def buildVars : List Var → List (String × String) → Res (List (String × String))
  | [], values => Res.ok values
  | v :: vs, values =>
    match calculate_var v values with
    | Res.ok s => buildVars vs (insertVal values v.name s)
    | Res.uerr e => Res.uerr e
    | Res.panicked m => Res.panicked m

/-- The final loop of `format_run`: for each known (placeholder, value) pair,
replace the placeholder in the accumulated run string. -/
def applyReplacements : List (String × String) → String → Res String
  | [], acc => Res.ok acc
  | (k, val) :: rest, acc =>
    match replace acc k val with
    | none => Res.panicked "invalid placeholder regex"
    | some acc2 => applyReplacements rest acc2

/-- `format_run` from config.rs: seed the mapping with `command` (always) and
`file`/`line` (when the trigger has them), evaluate the action's vars in
order, then replace every known placeholder in the action's run template. -/
def format_run (action : Action) (trigger : Trigger) : Res String :=
  let v0 : List (String × String) := insertVal [] "command" trigger.command
  let v1 : List (String × String) :=
    match trigger.file with
    | some f => insertVal v0 "file" f
    | none => v0
  let v2 : List (String × String) :=
    match trigger.line with
    | some l => insertVal v1 "line" (toString l)
    | none => v1
  match
    (match action.vars with
     | some vs => buildVars vs v2
     | none => Res.ok v2) with
  | Res.ok values => applyReplacements values action.run
  | Res.uerr e => Res.uerr e
  | Res.panicked m => Res.panicked m

/-- The loop body of `get_command`: scan the actions in configuration order;
the first action whose pattern matches the query wins; no match at all yields
the "cannot determine command" user error. -/
def getCommandList : List Action → Trigger → Res String
  | [], trigger =>
    Res.uerr ⟨"cannot determine command for trigger: " ++ trigger.display,
      "Please make sure that this trigger is listed in your configuration file"⟩
  | action :: rest, trigger =>
    if action.trigger.matches_client_trigger trigger then format_run action trigger
    else getCommandList rest trigger

/-- `Configuration::get_command` from config.rs. -/
def Configuration.get_command (config : Configuration) (trigger : Trigger) : Res String :=
  getCommandList config.actions trigger

lemma getCommandList_skip : ∀ (pre rest : List Action) (q : Trigger),
    (∀ b ∈ pre, b.trigger.matches_client_trigger q = false) →
    getCommandList (pre ++ rest) q = getCommandList rest q := by
  intro pre
  induction pre with
  | nil => intro rest q _; rfl
  | cons a pre ih =>
    intro rest q h
    have ha := h a (by simp)
    show getCommandList (a :: (pre ++ rest)) q = getCommandList rest q
    simp only [getCommandList, ha]
    simp only [Bool.false_eq_true, if_false]
    exact ih rest q (fun b hb => h b (by simp [hb]))

lemma getCommandList_head (a : Action) (rest : List Action) (q : Trigger)
    (h : a.trigger.matches_client_trigger q = true) :
    getCommandList (a :: rest) q = format_run a q := by
  simp [getCommandList, h]

/-- C1: `get_command` scans the actions in configuration order and returns the
templated run string — `format_run` — of the first action whose pattern
matches the query: any earlier actions do not match, and whatever follows the
first match (including further matching actions) is ignored. -/
theorem get_command_first_match (pre : List Action) (a : Action) (post : List Action)
    (q : Trigger)
    (hpre : ∀ b ∈ pre, b.trigger.matches_client_trigger q = false)
    (ha : a.trigger.matches_client_trigger q = true) :
    Configuration.get_command ⟨pre ++ a :: post⟩ q = format_run a q := by
  unfold Configuration.get_command
  rw [getCommandList_skip pre (a :: post) q hpre, getCommandList_head a post q ha]

/-- C1: witness — two actions whose patterns both match the query (the first
has no line constraint, the second would also match); the earlier one is
selected and its run string is returned. -/
theorem get_command_first_match_witness :
    Configuration.get_command
        ⟨[] ++ (⟨⟨"testFunction", some "filename", none⟩, "action1 command", none⟩ : Action)
          :: [⟨⟨"testFunction", some "filename", some 2⟩, "action2 command", none⟩]⟩
        ⟨"testFunction", some "filename", some 2⟩
      = format_run ⟨⟨"testFunction", some "filename", none⟩, "action1 command", none⟩
          ⟨"testFunction", some "filename", some 2⟩ :=
  get_command_first_match []
    ⟨⟨"testFunction", some "filename", none⟩, "action1 command", none⟩
    [⟨⟨"testFunction", some "filename", some 2⟩, "action2 command", none⟩]
    ⟨"testFunction", some "filename", some 2⟩ (by simp) (by decide)

/-- C2: when no action's pattern matches the query trigger, `get_command`
returns (rather than panics with) a `UserErr` whose message names the
unmatched trigger and whose hint tells the user to add the trigger to the
configuration file. -/
theorem get_command_no_match (actions : List Action) (q : Trigger)
    (h : ∀ b ∈ actions, b.trigger.matches_client_trigger q = false) :
    Configuration.get_command ⟨actions⟩ q
      = Res.uerr ⟨"cannot determine command for trigger: " ++ q.display,
          "Please make sure that this trigger is listed in your configuration file"⟩ := by
  unfold Configuration.get_command
  have h0 := getCommandList_skip actions [] q h
  simp at h0
  rw [h0]
  rfl

/-- C2: witness — the empty configuration with the `testAll` query (the
`test_all` unit test scenario) yields the no-match user error. -/
theorem get_command_no_match_witness :
    Configuration.get_command ⟨[]⟩ ⟨"testAll", none, none⟩
      = Res.uerr ⟨"cannot determine command for trigger: "
            ++ Trigger.display ⟨"testAll", none, none⟩,
          "Please make sure that this trigger is listed in your configuration file"⟩ :=
  get_command_no_match [] ⟨"testAll", none, none⟩ (by simp)

lemma format_run_file_var_panics (a : Action) (q : Trigger) (vs : List Var)
    (hvars : a.vars = some vs) (hne : vs ≠ [])
    (hall : ∀ v ∈ vs, v.source = VarSource.file) (hfile : q.file = none) :
    format_run a q = Res.panicked unwrapNoneMsg := by
  cases vs with
  | nil => exact absurd rfl hne
  | cons v vs' =>
    have hv := hall v (by simp)
    cases hl : q.line with
    | none =>
      simp only [format_run, hvars, hfile, hl, buildVars, calculate_var, hv]
      simp [insertVal, getVal]
    | some l =>
      simp only [format_run, hvars, hfile, hl, buildVars, calculate_var, hv]
      simp [insertVal, getVal]

/-- C10: an action whose vars are all `File`-source (and nonempty), matched by
a query trigger that carries no file, makes `get_command` panic (the
`values.get("file").unwrap()` in `calculate_var`) instead of returning an
error value: resolving a `File`-source var presupposes that the query trigger
carries a file. -/
theorem get_command_missing_file_panics (pre : List Action) (a : Action)
    (post : List Action) (q : Trigger) (vs : List Var)
    (hpre : ∀ b ∈ pre, b.trigger.matches_client_trigger q = false)
    (ha : a.trigger.matches_client_trigger q = true)
    (hvars : a.vars = some vs) (hne : vs ≠ [])
    (hall : ∀ v ∈ vs, v.source = VarSource.file) (hfile : q.file = none) :
    Configuration.get_command ⟨pre ++ a :: post⟩ q = Res.panicked unwrapNoneMsg := by
  unfold Configuration.get_command
  rw [getCommandList_skip pre (a :: post) q hpre, getCommandList_head a post q ha]
  exact format_run_file_var_panics a q vs hvars hne hall hfile

/-- C10: witness — a matching action with one `File`-source var and a query
without a file panics inside `get_command`. -/
theorem get_command_missing_file_panics_witness :
    Configuration.get_command
        ⟨[] ++ (⟨⟨"t", none, none⟩, "run", some [⟨"x", VarSource.file, "(.*)"⟩]⟩ : Action)
          :: []⟩ ⟨"t", none, none⟩
      = Res.panicked unwrapNoneMsg :=
  get_command_missing_file_panics []
    ⟨⟨"t", none, none⟩, "run", some [⟨"x", VarSource.file, "(.*)"⟩]⟩ []
    ⟨"t", none, none⟩ [⟨"x", VarSource.file, "(.*)"⟩]
    (by simp) (by decide) rfl (by decide) (by decide) rfl

/-- C5 (amended): for a `File`-source var whose filter compiles, when the
filter matches the known `file` value, a capture count different from two
(the whole match plus exactly one group) yields the count-mismatch
configuration error, and exactly one captured group yields that group's text;
but when the filter does not match the file string at all, `calculate_var`
panics (`re.captures(text).unwrap()` on `None`) instead of returning an error
value. -/
theorem calculate_var_file_source (v : Var) (values : List (String × String))
    (text : String) (re : RE) (ngroups : Nat)
    (hsrc : v.source = VarSource.file)
    (hget : getVal values "file" = some text)
    (hcomp : compileRE v.filter = some (re, ngroups)) :
    (reCaptures re ngroups text.data = none →
        calculate_var v values = Res.panicked unwrapNoneMsg)
      ∧ (∀ caps, reCaptures re ngroups text.data = some caps →
          ((caps.length ≠ 2 →
              calculate_var v values
                = Res.uerr ⟨"found " ++ toString caps.length ++ " captures",
                    "filters in the Tertestrial configuration file can only contain one capture group"⟩)
            ∧ ∀ w g, caps = [w, some g] →
                calculate_var v values = Res.ok (String.mk g))) := by
  constructor
  · intro hnone
    simp only [calculate_var, hsrc, hget, hcomp, hnone]
  · intro caps hcaps
    constructor
    · intro hlen
      simp only [calculate_var, hsrc, hget, hcomp, hcaps]
      rw [if_pos hlen]
    · intro w g heq
      subst heq
      simp only [calculate_var, hsrc, hget, hcomp, hcaps]
      simp

/-- C5: counterexample. A filter that does not match the file value at all
makes `calculate_var` panic — it does not return an error value, contrary to
the claim that a non-matching filter yields a configuration error. -/
theorem calculate_var_no_match_panics :
    calculate_var ⟨"x", VarSource.file, "zzz"⟩ [("file", "foo.rs")]
      = Res.panicked unwrapNoneMsg := by
  rfl

/-- The compiled form of the sample filter `(.*)_test`. -/
def sampleREPair : RE × Nat := (compileRE "(.*)_test").getD (RE.eps, 0)

/-- The capture slots of the sample filter against `foo_test.rs`. -/
def sampleCaps : List (Option (List Char)) :=
  (reCaptures sampleREPair.1 sampleREPair.2 "foo_test.rs".data).getD []

/-- C5 (amended): witness — the spec's example: filter `(.*)_test` (one
capture group) against file value `foo_test.rs` extracts `foo`. -/
theorem calculate_var_file_source_witness :
    calculate_var ⟨"base", VarSource.file, "(.*)_test"⟩ [("file", "foo_test.rs")]
      = Res.ok (String.mk ['f', 'o', 'o']) := by
  have h := calculate_var_file_source ⟨"base", VarSource.file, "(.*)_test"⟩
    [("file", "foo_test.rs")] "foo_test.rs" sampleREPair.1 sampleREPair.2
    rfl (by rfl) (by rfl)
  exact (h.2 sampleCaps (by rfl)).2 (some ['f', 'o', 'o', '_', 't', 'e', 's', 't'])
    ['f', 'o', 'o'] (by decide)

/-- C6 (amended): resolving a var whose source is `Line` or
`CurrentOrAboveLineContent` does not return an "unsupported" error value — it
panics with `implement`, aborting the process, for every var and every
known-values mapping. -/
theorem calculate_var_unimplemented (v : Var) (values : List (String × String))
    (h : v.source = VarSource.line ∨ v.source = VarSource.currentOrAboveLineContent) :
    calculate_var v values = Res.panicked "implement" := by
  rcases h with h | h <;> simp [calculate_var, h]

/-- C6: counterexample. A `Line`-source var resolves to the `implement` panic
— an abort, not an error value as the claim states. -/
theorem calculate_var_line_panics :
    calculate_var ⟨"x", VarSource.line, "f"⟩ [] = Res.panicked "implement" := by
  rfl

/-- C6 (amended): witness at a concrete `CurrentOrAboveLineContent` var. -/
theorem calculate_var_unimplemented_witness :
    calculate_var ⟨"y", VarSource.currentOrAboveLineContent, "f"⟩ []
      = Res.panicked "implement" :=
  calculate_var_unimplemented ⟨"y", VarSource.currentOrAboveLineContent, "f"⟩ []
    (Or.inr rfl)

/-- C4: a placeholder token whose name is absent from the mapping built by
`format_run` is left in the output as literal text — neither replaced nor
reported as an error.  Here: a var-free action whose query has no file and no
line, so the mapping holds only `command`; the run template is a `command`
token, a brace-free segment, the token of an unknown name `u`, and a
brace-free tail; the `command` token is substituted and the unknown token
survives verbatim. -/
theorem format_run_unknown_placeholder (q pat : Trigger) (s t u : List Char)
    (hfile : q.file = none) (hline : q.line = none)
    (hu1 : u ≠ []) (hu2 : ∀ c ∈ u, plainChar c = true) (hu3 : u ≠ "command".data)
    (hs : ∀ c ∈ s, c ≠ '{') (ht : ∀ c ∈ t, c ≠ '{') :
    format_run
        ⟨pat, String.mk (tightTok "command".data ++ (s ++ (tightTok u ++ t))), none⟩ q
      = Res.ok (String.mk (q.command.data ++ (s ++ (tightTok u ++ t)))) := by
  simp only [format_run, hfile, hline, applyReplacements, insertVal, replace]
  rw [parseName_plain "command".data (by decide)]
  have e1 := replaceAll_tight_head "command".data q.command.data
    (s ++ (tightTok u ++ t)) (by decide) (by decide)
  have e3 := replaceAll_skip_tight "command".data u q.command.data t
    (by decide) hu2 (fun hh => hu3 hh.symm) hu1
  have e4 : replaceAll ("command".data.map PAtom.lit) q.command.data t = t := by
    have := replaceAll_copy ("command".data.map PAtom.lit) q.command.data t [] ht
    simpa [replaceAll_nil] using this
  have e2 := replaceAll_copy ("command".data.map PAtom.lit) q.command.data s
    (tightTok u ++ t) hs
  simp only [e1, e2, e3, e4]

/-- C4: witness — query command `go`, template
`\x7b\x7bcommand\x7d\x7d \x7b\x7bunknown\x7d\x7d`: the command token is
substituted, the unknown token survives verbatim, and no error is reported. -/
theorem format_run_unknown_placeholder_witness :
    format_run
        ⟨⟨"go", none, none⟩,
          String.mk (tightTok "command".data ++ ([' '] ++ (tightTok "unknown".data ++ []))),
          none⟩
        ⟨"go", none, none⟩
      = Res.ok (String.mk ("go".data ++ ([' '] ++ (tightTok "unknown".data ++ [])))) :=
  format_run_unknown_placeholder ⟨"go", none, none⟩ ⟨"go", none, none⟩
    [' '] [] "unknown".data rfl rfl (by decide) (by decide) (by decide)
    (by decide) (by decide)

/-! ### Model of serde_json for `from_file` / `create`

`from_file` hands the configuration file to `serde_json::from_reader`; the
model below is a strict RFC-JSON parser (notably: no trailing commas) over
the fragment the configuration format uses — objects, arrays, strings with
escapes, integers, booleans, null — followed by a decoder into
`Configuration` with serde's semantics for the derived structs: required
fields must be present, optional fields may be absent, unknown fields are
ignored, and the camelCase-renamed `VarSource` variants. -/

/-- JSON values. -/
inductive Json where
  | null
  | bool : Bool → Json
  | num : Int → Json
  | str : String → Json
  | arr : List Json → Json
  | obj : List (String × Json) → Json
  deriving Repr

/-- JSON insignificant whitespace. -/
def jsonWs (c : Char) : Bool :=
  c == ' ' || c == '\t' || c == '\n' || c == '\r'

/-- Skip insignificant whitespace. -/
def skipWsJ (cs : List Char) : List Char :=
  cs.dropWhile jsonWs

/-- One hex digit. -/
def parseHex (c : Char) : Option Nat :=
  if '0' ≤ c ∧ c ≤ '9' then some (c.toNat - 48)
  else if 'a' ≤ c ∧ c ≤ 'f' then some (c.toNat - 87)
  else if 'A' ≤ c ∧ c ≤ 'F' then some (c.toNat - 55)
  else none

/-- The body of a JSON string, after the opening quote: returns the decoded
content and the input after the closing quote. -/
def parseJString : Nat → List Char → Option (List Char × List Char)
  | 0, _ => none
  | fuel + 1, cs =>
    match cs with
    | [] => none
    | '"' :: rest => some ([], rest)
    | '\\' :: e :: rest =>
      match
        (match e, rest with
         | '"', r => some ('"', r)
         | '\\', r => some ('\\', r)
         | '/', r => some ('/', r)
         | 'b', r => some ('\x08', r)
         | 'f', r => some ('\x0c', r)
         | 'n', r => some ('\n', r)
         | 'r', r => some ('\x0d', r)
         | 't', r => some ('\t', r)
         | 'u', h1 :: h2 :: h3 :: h4 :: r =>
           match parseHex h1, parseHex h2, parseHex h3, parseHex h4 with
           | some a, some b, some c, some d =>
             some (Char.ofNat (((a * 16 + b) * 16 + c) * 16 + d), r)
           | _, _, _, _ => none
         | _, _ => none) with
      | some (c, r) => (parseJString fuel r).map (fun p => (c :: p.1, p.2))
      | none => none
    | c :: rest =>
      if c.toNat < 32 then none
      else (parseJString fuel rest).map (fun p => (c :: p.1, p.2))

/-- A nonempty run of decimal digits and its value. -/
def parseDigits (cs : List Char) : Option (Nat × List Char) :=
  match cs.takeWhile (fun c => c.isDigit) with
  | [] => none
  | ds => some (ds.foldl (fun a c => a * 10 + (c.toNat - 48)) 0, cs.drop ds.length)

mutual

/-- Parse one JSON value (after skipping leading whitespace). -/
def parseValue : Nat → List Char → Option (Json × List Char)
  | 0, _ => none
  | fuel + 1, cs =>
    match skipWsJ cs with
    | [] => none
    | '"' :: rest => (parseJString fuel rest).map (fun p => (Json.str (String.mk p.1), p.2))
    | '{' :: rest => parseObj fuel rest
    | '[' :: rest => parseArr fuel rest
    | 't' :: 'r' :: 'u' :: 'e' :: r => some (Json.bool true, r)
    | 'f' :: 'a' :: 'l' :: 's' :: 'e' :: r => some (Json.bool false, r)
    | 'n' :: 'u' :: 'l' :: 'l' :: r => some (Json.null, r)
    | '-' :: rest => (parseDigits rest).map (fun p => (Json.num (-(p.1 : Int)), p.2))
    | c :: rest =>
      if c.isDigit then (parseDigits (c :: rest)).map (fun p => (Json.num (p.1 : Int), p.2))
      else none

/-- Parse an object body, after the opening brace. -/
def parseObj : Nat → List Char → Option (Json × List Char)
  | 0, _ => none
  | fuel + 1, cs =>
    match skipWsJ cs with
    | '}' :: r => some (Json.obj [], r)
    | '"' :: rest =>
      match parseJString fuel rest with
      | none => none
      | some (key, r1) =>
        match skipWsJ r1 with
        | ':' :: r2 =>
          match parseValue fuel r2 with
          | none => none
          | some (v, r3) => parseObjTail fuel [(String.mk key, v)] r3
        | _ => none
    | _ => none

/-- Parse the remaining fields of an object: after a comma only a further
string key may follow — a closing brace right after a comma (a trailing
comma) is a parse error. -/
def parseObjTail : Nat → List (String × Json) → List Char → Option (Json × List Char)
  | 0, _, _ => none
  | fuel + 1, acc, cs =>
    match skipWsJ cs with
    | '}' :: r => some (Json.obj acc.reverse, r)
    | ',' :: r1 =>
      match skipWsJ r1 with
      | '"' :: rest =>
        match parseJString fuel rest with
        | none => none
        | some (key, r2) =>
          match skipWsJ r2 with
          | ':' :: r3 =>
            match parseValue fuel r3 with
            | none => none
            | some (v, r4) => parseObjTail fuel ((String.mk key, v) :: acc) r4
          | _ => none
      | _ => none
    | _ => none

/-- Parse an array body, after the opening bracket. -/
def parseArr : Nat → List Char → Option (Json × List Char)
  | 0, _ => none
  | fuel + 1, cs =>
    match skipWsJ cs with
    | ']' :: r => some (Json.arr [], r)
    | _ =>
      match parseValue fuel cs with
      | none => none
      | some (v, r1) => parseArrTail fuel [v] r1

/-- Parse the remaining elements of an array (no trailing comma either). -/
def parseArrTail : Nat → List Json → List Char → Option (Json × List Char)
  | 0, _, _ => none
  | fuel + 1, acc, cs =>
    match skipWsJ cs with
    | ']' :: r => some (Json.arr acc.reverse, r)
    | ',' :: r1 =>
      match parseValue fuel r1 with
      | none => none
      | some (v, r2) => parseArrTail fuel (v :: acc) r2
    | _ => none

end

/-- Parse a whole JSON document: one value and nothing but whitespace after
it. -/
def parseJsonTop (s : String) : Option Json :=
  match parseValue (s.length + 10) s.data with
  | some (v, rest) => if skipWsJ rest = [] then some v else none
  | none => none

/-- Field lookup in a decoded object. -/
def jLookup : List (String × Json) → String → Option Json
  | [], _ => none
  | (k', v) :: rest, k => if k' = k then some v else jLookup rest k

/-- An optional string field: absent is fine, a non-string value is not. -/
def decodeOptStringField (fields : List (String × Json)) (k : String) :
    Option (Option String) :=
  match jLookup fields k with
  | none => some none
  | some (Json.str s) => some (some s)
  | some _ => none

/-- An optional unsigned-integer field. -/
def decodeOptNatField (fields : List (String × Json)) (k : String) :
    Option (Option Nat) :=
  match jLookup fields k with
  | none => some none
  | some (Json.num n) => if n < 0 then none else some (some n.toNat)
  | some _ => none

/-- Deserialize a `Trigger`: required `command`, optional `file` and `line`. -/
def decodeTrigger : Json → Option Trigger
  | Json.obj fields =>
    match jLookup fields "command" with
    | some (Json.str c) =>
      match decodeOptStringField fields "file", decodeOptNatField fields "line" with
      | some f, some l => some ⟨c, f, l⟩
      | _, _ => none
    | _ => none
  | _ => none

/-- Deserialize a `VarSource` (serde's camelCase variant names). -/
def decodeVarSource : Json → Option VarSource
  | Json.str "file" => some VarSource.file
  | Json.str "line" => some VarSource.line
  | Json.str "currentOrAboveLineContent" => some VarSource.currentOrAboveLineContent
  | _ => none

/-- Deserialize a `Var`: required `name`, `source`, `filter`. -/
def decodeVar : Json → Option Var
  | Json.obj fields =>
    match jLookup fields "name", (jLookup fields "source").bind decodeVarSource,
        jLookup fields "filter" with
    | some (Json.str n), some src, some (Json.str f) => some ⟨n, src, f⟩
    | _, _, _ => none
  | _ => none

/-- Deserialize a list of `Var`s, failing if any element fails. -/
def decodeVarList : List Json → Option (List Var)
  | [] => some []
  | j :: js =>
    match decodeVar j, decodeVarList js with
    | some v, some vs => some (v :: vs)
    | _, _ => none

/-- Deserialize an `Action`: required `trigger` and `run`, optional `vars`. -/
def decodeAction : Json → Option Action
  | Json.obj fields =>
    match (jLookup fields "trigger").bind decodeTrigger, jLookup fields "run" with
    | some trig, some (Json.str run) =>
      match jLookup fields "vars" with
      | none => some ⟨trig, run, none⟩
      | some (Json.arr js) => (decodeVarList js).map (fun vs => ⟨trig, run, some vs⟩)
      | some _ => none
    | _, _ => none
  | _ => none

/-- Deserialize a list of `Action`s. -/
def decodeActionList : List Json → Option (List Action)
  | [] => some []
  | j :: js =>
    match decodeAction j, decodeActionList js with
    | some a, some as' => some (a :: as')
    | _, _ => none

/-- Deserialize a `Configuration`: required `actions` array. -/
def decodeConfiguration : Json → Option Configuration
  | Json.obj fields =>
    match jLookup fields "actions" with
    | some (Json.arr js) => (decodeActionList js).map (fun as' => ⟨as'⟩)
    | _ => none
  | _ => none

/-- `from_file` from config.rs, applied to the contents of the configuration
file (the file-system read itself is external I/O; a missing file is the
distinct "Configuration file not found" error, not modelled here): parse and
deserialize the document, mapping any failure to the "Cannot parse
configuration file" user error (serde's message detail omitted). -/
def from_file_contents (contents : String) : Except UserErr Configuration :=
  match (parseJsonTop contents).bind decodeConfiguration with
  | some c => Except.ok c
  | none => Except.error ⟨"Cannot parse configuration file", ""⟩

/-- The fixed sample configuration body that `create` from config.rs writes
to `.testconfig.json`, reproduced verbatim (braces written as `\x7b`/`\x7d`,
one backslash written as `\\`). -/
def create_contents : String :=
  "\x7b\n  \"actions\": [\n    \x7b\n      \"trigger\": \x7b \"command\": \"testAll\" \x7d,\n      \"run\": \"echo test all files\"\n    \x7d,\n\n    \x7b\n      \"trigger\": \x7b\n        \"command\": \"testFile\",\n        \"file\": \"\\\\.rs$\"\n      \x7d,\n      \"run\": \"echo testing file \x7b\x7bfile\x7d\x7d\"\n    \x7d,\n\n    \x7b\n      \"trigger\": \x7b\n        \"command\": \"testFunction\",\n        \"file\": \"\\\\.ext$\",\n      \x7d,\n      \"run\": \"echo testing file \x7b\x7bfile\x7d\x7d at line \x7b\x7bline\x7d\x7d\"\n    \x7d\n  ]\n\x7d"

/-- The same body with the trailing comma after the third action's
`"file"` field removed. -/
def create_contents_fixed : String :=
  "\x7b\n  \"actions\": [\n    \x7b\n      \"trigger\": \x7b \"command\": \"testAll\" \x7d,\n      \"run\": \"echo test all files\"\n    \x7d,\n\n    \x7b\n      \"trigger\": \x7b\n        \"command\": \"testFile\",\n        \"file\": \"\\\\.rs$\"\n      \x7d,\n      \"run\": \"echo testing file \x7b\x7bfile\x7d\x7d\"\n    \x7d,\n\n    \x7b\n      \"trigger\": \x7b\n        \"command\": \"testFunction\",\n        \"file\": \"\\\\.ext$\"\n      \x7d,\n      \"run\": \"echo testing file \x7b\x7bfile\x7d\x7d at line \x7b\x7bline\x7d\x7d\"\n    \x7d\n  ]\n\x7d"

/-- C8: the round-trip fails — on the very body `create` writes, `from_file`
returns the "Cannot parse configuration file" error instead of a parsed
`Configuration`: the body's third action carries a trailing comma after its
`"file"` field, which strict JSON (serde_json) rejects. -/
theorem create_from_file_fails :
    from_file_contents create_contents
      = Except.error ⟨"Cannot parse configuration file", ""⟩ := by
  rfl

/-- Sanity check of the model: with that one trailing comma removed, the same
body parses and deserializes into a `Configuration`. -/
theorem create_contents_fixed_roundtrips :
    (from_file_contents create_contents_fixed
      = Except.ok ⟨[⟨⟨"testAll", none, none⟩, "echo test all files", none⟩,
          ⟨⟨"testFile", some "\\.rs$", none⟩,
            "echo testing file \x7b\x7bfile\x7d\x7d", none⟩,
          ⟨⟨"testFunction", some "\\.ext$", none⟩,
            "echo testing file \x7b\x7bfile\x7d\x7d at line \x7b\x7bline\x7d\x7d",
            none⟩]⟩) := by
  rfl

end Tertestrial
